import Mathlib

/-!
# Formal model of the RapidoDevis PDF quote parser

A shallow embedding of `scripts/pdf_parser.py` (class `RapidoDevisParser`) and of
the batch driver `scripts/test_parser_batch.py`.

Modelling conventions:
* Python strings are modelled as `List Char` (`Str`). Unicode code points agree
  with Python's `str` characters.
* The concrete regular expressions of the source are hand-compiled into
  deterministic scanners; the two places where Python's backtracking is
  observable (the interaction of a greedy `\s+` with a following lazy `(.+?)`
  in the sub-area and line-item row patterns) are realised explicitly by trying
  the space-split candidates in Python's exploration order.
* Python `float` values produced by the parser are modelled as exact rationals
  (`ℚ`); every number the parser converts is a plain decimal literal, so the
  decimal semantics is captured exactly.
* Digit classes (`\d`) are modelled as ASCII `0`-`9`; the documents and the
  spec only use ASCII digits.
* Python exceptions (`ValueError` from `float`/`strptime`) are modelled with
  `Except Unit`: any raise aborts the computation.
-/

/-- Python character set matched by `\s` (and stripped by `str.strip()`):
ASCII whitespace plus the Unicode whitespace code points. -/
def isPySpace (c : Char) : Bool :=
  c = ' ' ∨ c = '\t' ∨ c = '\n' ∨ c = '\r' ∨ c.val = 11 ∨ c.val = 12 ∨
  c.val = 28 ∨ c.val = 29 ∨ c.val = 30 ∨ c.val = 31 ∨ c.val = 133 ∨ c.val = 160 ∨
  c.val = 5760 ∨ (8192 ≤ c.val ∧ c.val ≤ 8202) ∨ c.val = 8232 ∨ c.val = 8233 ∨
  c.val = 8239 ∨ c.val = 8287 ∨ c.val = 12288

/-- ASCII decimal digit, the model of the regex class `\d`. -/
def isDigitC (c : Char) : Bool := '0' ≤ c ∧ c ≤ '9'

/-- The regex class `[A-ZÀ-Ÿ]`: the two code-point ranges `A`-`Z` and
U+00C0-U+0178 (the latter range also contains some lowercase letters and
`×`; it is a code-point range, exactly as Python interprets it). -/
def isUpperFr (c : Char) : Bool :=
  ('A' ≤ c ∧ c ≤ 'Z') ∨ (0xC0 ≤ c.val ∧ c.val ≤ 0x178)

/-- The regex class `[a-zà-ÿ]`: ranges `a`-`z` and U+00E0-U+00FF
(the latter includes `÷`, again a plain code-point range). -/
def isLowerFr (c : Char) : Bool :=
  ('a' ≤ c ∧ c ≤ 'z') ∨ (0xE0 ≤ c.val ∧ c.val ≤ 0xFF)

/-- Word characters for `\w` restricted to the alphabet reachable in this
parser: ASCII letters, digits, underscore and the accented-letter ranges
minus the two non-letters `×` (U+00D7) and `÷` (U+00F7). -/
def isWordC (c : Char) : Bool :=
  isDigitC c ∨ ('A' ≤ c ∧ c ≤ 'Z') ∨ ('a' ≤ c ∧ c ≤ 'z') ∨ c = '_' ∨
  ((0xC0 ≤ c.val ∧ c.val ≤ 0x178) ∧ c.val ≠ 0xD7 ∧ c.val ≠ 0xF7) ∨
  ((0xE0 ≤ c.val ∧ c.val ≤ 0xFF) ∧ c.val ≠ 0xF7)

abbrev Str := List Char

/-- Maximal munch of a character class: `(l.takeWhile p, l.dropWhile p)`. -/
def spanP (p : Char → Bool) (l : Str) : Str × Str :=
  (l.takeWhile p, l.dropWhile p)

/-- Drop leading Python whitespace. -/
def dropSp (l : Str) : Str := l.dropWhile isPySpace

/-- Python `str.strip()`. -/
def pyStrip (l : Str) : Str :=
  ((l.dropWhile isPySpace).reverse.dropWhile isPySpace).reverse

/-- Match a literal character sequence at the head, returning the rest. -/
def litM : Str → Str → Option Str
  | [], t => some t
  | _ :: _, [] => none
  | a :: as, c :: cs => if c = a then litM as cs else none

/-- Expect one specific character at the head. -/
def chM (a : Char) : Str → Option Str
  | [] => none
  | c :: cs => if c = a then some cs else none

/-- Take exactly `n` characters of class `p`. -/
def takeExact (p : Char → Bool) : Nat → Str → Option (Str × Str)
  | 0, t => some ([], t)
  | _ + 1, [] => none
  | n + 1, c :: cs =>
    if p c then (takeExact p n cs).map (fun pr => (c :: pr.1, pr.2)) else none

/-- Leftmost-match search: try matcher `m` at every start position in order,
the model of `re.search`. -/
def searchPos (m : Str → Option α) : Str → Option α
  | [] => m []
  | c :: cs =>
    match m (c :: cs) with
    | some a => some a
    | none => searchPos m cs

/-- Tests that `needle` occurs as a contiguous substring of `hay` (Python `in`). -/
def hasSub (needle hay : Str) : Bool :=
  match hay with
  | [] => (litM needle []).isSome
  | _ :: cs => (litM needle hay).isSome || hasSub needle cs

/-- First element of a list of candidates on which `f` succeeds. -/
def firstSome (f : α → Option β) : List α → Option β
  | [] => none
  | a :: as =>
    match f a with
    | some b => some b
    | none => firstSome f as

/-- Lazy `(.+?)` followed by a continuation: consume at least one character
(never a newline, as Python `.` does not match `\n`), trying the continuation
after each additional character, shortest consumption first. Returns the
consumed span (the lazy group's capture) and the continuation's result. -/
def lazyScan (cont : Str → Option α) : Str → Option (Str × α)
  | [] => none
  | c :: rest =>
    if c = '\n' then none
    else
      match cont rest with
      | some a => some ([c], a)
      | none =>
        match lazyScan cont rest with
        | some (g, a) => some (c :: g, a)
        | none => none

/-- The candidate rests for a greedy `\s+` followed by a lazy group, in
Python's backtracking order: all the matched spaces first, then giving one
space at a time back to the lazy group. `sp` is the maximal space run,
`t` the text after it. -/
def spaceSplits (sp t : Str) : List Str :=
  (List.range sp.length).map (fun k => sp.drop (sp.length - k) ++ t)

/-- Split a list at the first occurrence of `c`: `some (before, after)` when
present (Python `split(c, 1)` with two parts). -/
def splitFirst (c : Char) : Str → Option (Str × Str)
  | [] => none
  | a :: as =>
    if a = c then some ([], as)
    else (splitFirst c as).map (fun pr => (a :: pr.1, pr.2))

/-- Digits to a natural number (empty list gives 0). -/
def natOfDigits (l : Str) : Nat :=
  l.foldl (fun n c => 10 * n + (c.toNat - 48)) 0

/-- The rational value of the decimal literal with mantissa `m` and `e`
digits after the dot. -/
def decimalQ (m : Nat) (e : Nat) : ℚ := Rat.divInt m (10 ^ e)

/-- Python `float()` on the strings reachable in this parser: after stripping
whitespace the text must be decimal digits with at most one dot and at least
one digit; the result is the exact rational value. Anything else raises
(`none`). -/
def pyFloat (s : Str) : Option ℚ :=
  let t := pyStrip s
  if t.all isDigitC ∧ t ≠ [] then some (decimalQ (natOfDigits t) 0)
  else
    match splitFirst '.' t with
    | some (a, b) =>
      if a.all isDigitC ∧ b.all isDigitC ∧ (a ≠ [] ∨ b ≠ []) then
        some (decimalQ (natOfDigits (a ++ b)) b.length)
      else none
    | none => none

/-- Model of `str.replace(',', '.')` as used on line-item numbers. -/
def commaDot (s : Str) : Str := s.map (fun c => if c = ',' then '.' else c)

/-- Model of `group.replace(' ', '').replace(',', '.')` as used on page totals. -/
def cleanAmt (s : Str) : Str := commaDot (s.filter (fun c => c ≠ ' '))

/-! ## Row-classification patterns of `_parse_table` -/

/-- The regex class `[\d.]`. -/
def isDigitDot (c : Char) : Bool := isDigitC c ∨ c = '.'

/-- The regex class `[\d,]`. -/
def isDigitComma (c : Char) : Bool := isDigitC c ∨ c = ','

/-- Captures of the sub-area ("piece") header pattern
`^(\d+)\s+(.+?)\s*-\s*([\d.]+)\s*m²`. -/
structure PieceCaps where
  num : Str
  texte : Str
  surf : Str
deriving DecidableEq

/-- Continuation after the lazy group of the piece pattern:
`\s*-\s*([\d.]+)\s*m²`, returning group 3. -/
def pieceCont (t : Str) : Option Str :=
  match chM '-' (dropSp t) with
  | none => none
  | some t =>
    let (g3, t) := spanP isDigitDot (dropSp t)
    if g3 = [] then none
    else
      match litM ['m', '²'] (dropSp t) with
      | none => none
      | some _ => some g3

/-- Model of `re.match(r'^(\d+)\s+(.+?)\s*-\s*([\d.]+)\s*m²', line)`. -/
def pieceMatch (line : Str) : Option PieceCaps :=
  let (g1, t) := spanP isDigitC line
  if g1 = [] then none
  else
    let (sp, t2) := spanP isPySpace t
    if sp = [] then none
    else
      firstSome (fun start =>
        (lazyScan pieceCont start).map (fun pr => ⟨g1, pr.1, pr.2⟩))
        (spaceSplits sp t2)

/-- First character class of the category pattern,
`[A-ZÀÂÄÉÈÊËÏÎÔÙÛÜŸŒÆÇ]`. -/
def isCatUpper (c : Char) : Bool :=
  ('A' ≤ c ∧ c ≤ 'Z') ∨
  c ∈ ['À', 'Â', 'Ä', 'É', 'È', 'Ê', 'Ë', 'Ï', 'Î', 'Ô', 'Ù', 'Û', 'Ü', 'Ÿ', 'Œ', 'Æ', 'Ç']

/-- Body character class of the category pattern,
`[a-zàâäéèêëïîôùûüÿœæç\s/]`. -/
def isCatLower (c : Char) : Bool :=
  ('a' ≤ c ∧ c ≤ 'z') ∨
  c ∈ ['à', 'â', 'ä', 'é', 'è', 'ê', 'ë', 'ï', 'î', 'ô', 'ù', 'û', 'ü', 'ÿ', 'œ', 'æ', 'ç'] ∨
  isPySpace c ∨ c = '/'

/-- Model of `re.match(r'^(\d+\.\d+)\s+([A-Z...][a-z...\s/]+)$', line)`, returning
group 2. The trailing `$` accepts end-of-input or a single final newline. -/
def catMatch (line : Str) : Option Str :=
  let (a, t) := spanP isDigitC line
  if a = [] then none else
  match chM '.' t with
  | none => none
  | some t =>
    let (b, t) := spanP isDigitC t
    if b = [] then none else
    let (sp, t) := spanP isPySpace t
    if sp = [] then none else
    match t with
    | [] => none
    | c :: t2 =>
      if isCatUpper c then
        let (body, t3) := spanP isCatLower t2
        if body = [] then none
        else if t3 = [] ∨ t3 = ['\n'] then some (c :: body) else none
      else none

/-- Captures of the priced-line pattern
`^(\d+\.\d+\.\d+)\s+(.+?)\s+(\d+(?:[.,]\d+)?)\s+(\w+)\s+([\d,]+)\s*€\s+([\d.]+)\s*%\s+([\d,]+)\s*€`. -/
structure LigneCaps where
  numero : Str
  texte : Str
  qte : Str
  unite : Str
  prix : Str
  tva : Str
  total : Str
deriving DecidableEq

/-- Tail of the priced-line pattern after the quantity:
`\s+(\w+)\s+([\d,]+)\s*€\s+([\d.]+)\s*%\s+([\d,]+)\s*€`,
returning (unit, unit price, tax rate, total). -/
def ligneAfterQty (t : Str) : Option (Str × Str × Str × Str) :=
  let (sp, t) := spanP isPySpace t
  if sp = [] then none else
  let (g4, t) := spanP isWordC t
  if g4 = [] then none else
  let (sp2, t) := spanP isPySpace t
  if sp2 = [] then none else
  let (g5, t) := spanP isDigitComma t
  if g5 = [] then none else
  match chM '€' (dropSp t) with
  | none => none
  | some t =>
    let (sp3, t) := spanP isPySpace t
    if sp3 = [] then none else
    let (g6, t) := spanP isDigitDot t
    if g6 = [] then none else
    match chM '%' (dropSp t) with
    | none => none
    | some t =>
      let (sp4, t) := spanP isPySpace t
      if sp4 = [] then none else
      let (g7, t) := spanP isDigitComma t
      if g7 = [] then none else
      match chM '€' (dropSp t) with
      | none => none
      | some _ => some (g4, g5, g6, g7)

/-- Continuation after the lazy group of the priced-line pattern:
`\s+` then the quantity group `(\d+(?:[.,]\d+)?)` then `ligneAfterQty`; the
optional fraction is greedy, with Python's fallback when taking it makes the
rest fail. -/
def ligneQty (t0 : Str) : Option (Str × (Str × Str × Str × Str)) :=
  let (sp0, t) := spanP isPySpace t0
  if sp0 = [] then none else
  let (d, t1) := spanP isDigitC t
  if d = [] then none else
  match t1 with
  | [] => none
  | c :: t2 =>
    if c = ',' ∨ c = '.' then
      let (f, t3) := spanP isDigitC t2
      if f ≠ [] then
        match ligneAfterQty t3 with
        | some r => some (d ++ c :: f, r)
        | none => (ligneAfterQty t1).map (fun r => (d, r))
      else (ligneAfterQty t1).map (fun r => (d, r))
    else (ligneAfterQty t1).map (fun r => (d, r))

/-- Model of `re.match` of the full priced-line pattern. -/
def ligneMatch (line : Str) : Option LigneCaps :=
  let (a, t) := spanP isDigitC line
  if a = [] then none else
  match chM '.' t with
  | none => none
  | some t =>
    let (b, t) := spanP isDigitC t
    if b = [] then none else
    match chM '.' t with
    | none => none
    | some t =>
      let (c3, t) := spanP isDigitC t
      if c3 = [] then none else
      let g1 := a ++ '.' :: b ++ '.' :: c3
      let (sp, t2) := spanP isPySpace t
      if sp = [] then none else
      firstSome (fun start =>
        (lazyScan ligneQty start).map (fun pr =>
          ⟨g1, pr.1, pr.2.1, pr.2.2.1, pr.2.2.2.1, pr.2.2.2.2.1, pr.2.2.2.2.2⟩))
        (spaceSplits sp t2)

/-! ## Client extractor `_extract_client_info` -/

/-- The ClientInfo dictionary built by `_extract_client_info`. -/
structure Client where
  nom : Option Str
  adresse : Option Str
  code_postal : Option Str
  ville : Option Str
  type_client : Str
deriving DecidableEq

def emptyClient : Client := ⟨none, none, none, none, []⟩

/-- The ordered alternation `(Mme|M\.|Monsieur|Madame)`; at any position at
most one branch can match (their second characters differ). -/
def titleAlt (t : Str) : Option Str :=
  match litM "Mme".data t with
  | some r => some r
  | none =>
    match litM "M.".data t with
    | some r => some r
    | none =>
      match litM "Monsieur".data t with
      | some r => some r
      | none => litM "Madame".data t

/-- One capitalized word `[A-ZÀ-Ÿ][a-zà-ÿ]+`, returning (consumed, rest). -/
def wordUL (t : Str) : Option (Str × Str) :=
  match t with
  | [] => none
  | c :: t2 =>
    if isUpperFr c then
      let (w, t3) := spanP isLowerFr t2
      if w = [] then none else some (c :: w, t3)
    else none

/-- Greedy `(?:\s+[A-ZÀ-Ÿ][a-zà-ÿ]+)*`, returning (consumed, rest). Each
iteration consumes at least two characters, so fuel = input length is enough. -/
def moreWords : Nat → Str → (Str × Str)
  | 0, t => ([], t)
  | fuel + 1, t =>
    let (sp, t1) := spanP isPySpace t
    if sp = [] then ([], t)
    else
      match wordUL t1 with
      | none => ([], t)
      | some (w, t2) =>
        let pr := moreWords fuel t2
        (sp ++ w ++ pr.1, pr.2)

/-- Strategy 1 pattern at one position:
`(Mme|M\.|Monsieur|Madame)\s+([A-ZÀ-Ÿ][a-zà-ÿ]+(?:\s+[A-ZÀ-Ÿ][a-zà-ÿ]+)+)`,
returning group 2. -/
def strat1At (t : Str) : Option Str :=
  match titleAlt t with
  | none => none
  | some t =>
    let (sp, t1) := spanP isPySpace t
    if sp = [] then none
    else
      match wordUL t1 with
      | none => none
      | some (w1, t2) =>
        let pr := moreWords t2.length t2
        if pr.1 = [] then none else some (w1 ++ pr.1)

/-- Model of `re.search` of the strategy 1 pattern over a line. -/
def strat1Search (line : Str) : Option Str := searchPos strat1At line

/-- Strategy 2 anchor `re.match(r'^(Mme|M\.|Monsieur|Madame)\s+[A-ZÀ-Ÿ]')`. -/
def strat2Test (line : Str) : Bool :=
  match titleAlt line with
  | none => false
  | some t =>
    let (sp, t1) := spanP isPySpace t
    if sp = [] then false
    else match t1 with | c :: _ => isUpperFr c | [] => false

/-- Model of `re.sub(r'^(Mme|M\.|Monsieur|Madame)\s+', '', line)`. -/
def strat2Sub (line : Str) : Str :=
  match titleAlt line with
  | none => line
  | some t =>
    let (sp, t1) := spanP isPySpace t
    if sp = [] then line else t1

/-- Strategy 3 anchor
`re.match(r'^[A-ZÀ-Ÿ][a-zà-ÿ]+(\s+[A-ZÀ-Ÿ][a-zà-ÿ]+)+$', line)`. -/
def strat3Test (line : Str) : Bool :=
  match wordUL line with
  | none => false
  | some pr =>
    let mw := moreWords pr.2.length pr.2
    mw.1 ≠ [] ∧ (mw.2 = [] ∨ mw.2 = ['\n'])

/-- Model of `re.match(r'^\d+\s+', t)` as a test. -/
def addrTest (t : Str) : Bool :=
  let (d, t1) := spanP isDigitC t
  d ≠ [] ∧ t1.takeWhile isPySpace ≠ []

/-- Model of `re.match(r'^\d{5}\s+', t)` as a test. -/
def cp5Test (t : Str) : Bool :=
  match takeExact isDigitC 5 t with
  | none => false
  | some pr => pr.2.takeWhile isPySpace ≠ []

/-- Model of `re.search(r'\d', t)`. -/
def hasDigit (t : Str) : Bool := t.any isDigitC

/-- Model of `re.search(r'\d{5}', t)`. -/
def hasFiveDigits (t : Str) : Bool :=
  (searchPos (fun u => (takeExact isDigitC 5 u).map (fun _ => ())) t).isSome

/-- Python `s.split(maxsplit=1)`: first whitespace-free token and the
remainder after the separating run (None when nothing follows). -/
def splitMax1 (t : Str) : Str × Option Str :=
  let t1 := dropSp t
  let (tok, t2) := spanP (fun c => ¬ isPySpace c) t1
  let t3 := dropSp t2
  (tok, if t3 = [] then none else some t3)

/-- Worker for `splitPy`, with fuel (the input length suffices since every
emitted token consumes at least one character). -/
def splitPyGo : Nat → Str → List Str
  | 0, _ => []
  | fuel + 1, t =>
    let t1 := dropSp t
    match spanP (fun c => ¬ isPySpace c) t1 with
    | ([], _) => []
    | (tok, t2) => tok :: splitPyGo fuel t2

/-- Python `s.split()` (split on whitespace runs, no empty tokens). -/
def splitPy (t : Str) : List Str := splitPyGo t.length t

/-- Model of `' '.join(parts)`. -/
def joinSpace : List Str → Str
  | [] => []
  | [x] => x
  | x :: xs => x ++ ' ' :: joinSpace xs

/-- Python `text.split('\n')` (keeps empty lines). -/
def splitLines : Str → List Str
  | [] => [[]]
  | c :: t =>
    if c = '\n' then [] :: splitLines t
    else
      match splitLines t with
      | [] => [[c]]
      | l :: ls => (c :: l) :: ls

/-- Strategy 1 lookahead over the next (at most five) lines: skip blank and
noise lines, assign the first number-led line to `adresse` (once), and stop at
a 5-digit-led line split into postal code and city. -/
def look1 : Client → List Str → Client
  | c, [] => c
  | c, l :: ls =>
    let nl := pyStrip l
    if nl = [] ∨ hasSub "SIRET".data nl ∨ hasSub "RAPIDO".data nl then look1 c ls
    else if c.adresse = none ∧ addrTest nl then look1 { c with adresse := some nl } ls
    else if cp5Test nl then
      let pr := splitMax1 nl
      { c with code_postal := some pr.1,
               ville := match pr.2 with | some v => some v | none => c.ville }
    else look1 c ls

/-- Common `lines[i+2]` handling of strategies 2 and 3: when that line holds
five consecutive digits and splits into at least two parts, set postal code
and city. -/
def cpVilleAt2 (c : Client) (ls : List Str) : Client :=
  match ls with
  | _ :: l2 :: _ =>
    if hasFiveDigits l2 then
      match splitPy (pyStrip l2) with
      | p0 :: p1 :: rest =>
        { c with code_postal := some p0, ville := some (joinSpace (p1 :: rest)) }
      | _ => c
    else c
  | _ => c

/-- The per-line loop of `_extract_client_info`: on each (stripped) line try
strategy 1's search, then strategy 2's anchor, then strategy 3's anchor; the
first line matching any strategy is used and the loop stops there. -/
def clientLoop : List Str → Client → Client
  | [], c => c
  | l :: ls, c =>
    let lc := pyStrip l
    match strat1Search lc with
    | some g => look1 { c with nom := some (pyStrip g) } (ls.take 5)
    | none =>
      if strat2Test lc then
        let c1 := { c with nom := some (strat2Sub lc) }
        let c2 :=
          match ls with
          | l1 :: _ => if hasDigit l1 then { c1 with adresse := some (pyStrip l1) } else c1
          | [] => c1
        cpVilleAt2 c2 ls
      else if strat3Test lc then
        let c1 := { c with nom := some lc }
        let c2 :=
          match ls with
          | l1 :: _ => { c1 with adresse := some (pyStrip l1) }
          | [] => c1
        cpVilleAt2 c2 ls
      else clientLoop ls c

/-- Model of `_extract_client_info`. -/
def extractClientInfo (text : Str) : Client :=
  let c := clientLoop (splitLines text) emptyClient
  { c with type_client := "PARTICULIER".data }

/-! ## Metadata extractor `_extract_metadata` -/

/-- A `datetime.date` value. -/
structure PyDate where
  day : Nat
  month : Nat
  year : Nat
deriving DecidableEq

def isLeapYear (y : Nat) : Bool := y % 4 = 0 ∧ (y % 100 ≠ 0 ∨ y % 400 = 0)

def daysInMonth (m y : Nat) : Nat :=
  if m = 2 then (if isLeapYear y then 29 else 28)
  else if m = 4 ∨ m = 6 ∨ m = 9 ∨ m = 11 then 30 else 31

/-- Model of `datetime.strptime(s, '%d/%m/%Y').date()` on a capture of the
`\d{2}/\d{2}/\d{4}` group: succeeds exactly when the digits denote a valid
Gregorian calendar date (with year at least 1); otherwise it raises. -/
def strptimeDMY (s : Str) : Option PyDate :=
  match s with
  | [d1, d2, _, m1, m2, _, y1, y2, y3, y4] =>
    let d := natOfDigits [d1, d2]
    let m := natOfDigits [m1, m2]
    let y := natOfDigits [y1, y2, y3, y4]
    if 1 ≤ m ∧ m ≤ 12 ∧ 1 ≤ d ∧ d ≤ daysInMonth m y ∧ 1 ≤ y then some ⟨d, m, y⟩
    else none
  | _ => none

/-- Model of `re.search(r'N°\s*(D\d{6}-\d+)', ...)` at one position, returning the
captured identifier. -/
def numeroAt (t : Str) : Option Str :=
  match litM "N°".data t with
  | none => none
  | some t =>
    match chM 'D' (dropSp t) with
    | none => none
    | some t =>
      match takeExact isDigitC 6 t with
      | none => none
      | some (d6, t) =>
        match chM '-' t with
        | none => none
        | some t =>
          let (ds, _) := spanP isDigitC t
          if ds = [] then none else some ('D' :: d6 ++ '-' :: ds)

/-- A date pattern `marker\s*(\d{2}/\d{2}/\d{4})` at one position, returning
the 10-character capture. -/
def dateAt (marker : Str) (t : Str) : Option Str :=
  match litM marker t with
  | none => none
  | some t =>
    match takeExact isDigitC 2 (dropSp t) with
    | none => none
    | some (dd, t) =>
      match chM '/' t with
      | none => none
      | some t =>
        match takeExact isDigitC 2 t with
        | none => none
        | some (mm, t) =>
          match chM '/' t with
          | none => none
          | some t =>
            match takeExact isDigitC 4 t with
            | none => none
            | some (yy, _) => some (dd ++ '/' :: mm ++ '/' :: yy)

/-- The literal `En date du`. -/
def enDateMarker : Str := "En date du".data

/-- The literal `valable jusqu'au` (the apostrophe written as code point 39). -/
def valableMarker : Str :=
  ['v', 'a', 'l', 'a', 'b', 'l', 'e', ' ', 'j', 'u', 's', 'q', 'u',
   Char.ofNat 39, 'a', 'u']

/-- The metadata dictionary of `_extract_metadata`. -/
structure Metadata where
  numero_devis : Option Str
  date_devis : Option PyDate
  date_validite : Option PyDate
deriving DecidableEq

/-- Turn a matched date capture into a field value: an unmatched pattern is a
silent miss, a matched but invalid date raises (`strptime` has no
try/except around it in the source). -/
def dateField (g : Option Str) : Except Unit (Option PyDate) :=
  match g with
  | none => .ok none
  | some s =>
    match strptimeDMY s with
    | some d => .ok (some d)
    | none => .error ()

/-- Model of `_extract_metadata`. -/
def extractMetadata (text : Str) : Except Unit Metadata :=
  let num := searchPos numeroAt text
  match dateField (searchPos (dateAt enDateMarker) text) with
  | .error e => .error e
  | .ok dd =>
    match dateField (searchPos (dateAt valableMarker) text) with
    | .error e => .error e
    | .ok dv => .ok ⟨num, dd, dv⟩

/-! ## Totals extractor `_extract_montants` -/

/-- The regex class `[\d\s,]`. -/
def isAmtChar (c : Char) : Bool := isDigitC c ∨ isPySpace c ∨ c = ','

/-- The tail `\s*([\d\s,]+)\s*€` of every totals pattern, at one position.
The leading greedy `\s*` normally leaves the capture to start at the first
non-space; when nothing but spaces precedes the Euro sign Python backtracks
one space into the (non-empty) group, so the capture is that single space. -/
def amtTail (t : Str) : Option Str :=
  let (sp, t1) := spanP isPySpace t
  let (g, t2) := spanP isAmtChar t1
  match chM '€' t2 with
  | none => none
  | some _ =>
    if g ≠ [] then some g
    else
      match sp.reverse with
      | c :: _ => some [c]
      | [] => none

/-- Model of `label\s*([\d\s,]+)\s*€` at one position. -/
def amtAt (label : Str) (t : Str) : Option Str :=
  match litM label t with
  | none => none
  | some t => amtTail t

/-- Model of `TVA\s*\(rate\)\s*([\d\s,]+)\s*€` at one position. -/
def tvaAt (rate : Str) (t : Str) : Option Str :=
  match litM "TVA".data t with
  | none => none
  | some t =>
    match litM rate (dropSp t) with
    | none => none
    | some t => amtTail t

/-- A sub-area ("piece") record as stored in `self.data['pieces']`. -/
structure Piece where
  numero : Str
  nom : Str
  surface : ℚ
deriving DecidableEq

/-- The totals dictionary of `_extract_montants`. -/
structure Montants where
  total_ht : Option ℚ
  tva_10_pct : Option ℚ
  tva_20_pct : Option ℚ
  total_ttc : Option ℚ
  surface_totale : Option ℚ
deriving DecidableEq

/-- Turn a matched amount capture into a field value: an unmatched pattern is
a silent miss, a matched capture whose cleaned text `float()` cannot parse
raises. -/
def amtField (g : Option Str) : Except Unit (Option ℚ) :=
  match g with
  | none => .ok none
  | some s =>
    match pyFloat (cleanAmt s) with
    | some v => .ok (some v)
    | none => .error ()

/-- Model of `_extract_montants` (the pieces list is the state of
`self.data['pieces']` at call time, used for `surface_totale`). -/
def extractMontants (text : Str) (pieces : List Piece) : Except Unit Montants :=
  match amtField (searchPos (amtAt "Total net HT".data) text) with
  | .error e => .error e
  | .ok ht =>
    match amtField (searchPos (tvaAt "(10.0%)".data) text) with
    | .error e => .error e
    | .ok t10 =>
      match amtField (searchPos (tvaAt "(20.0%)".data) text) with
      | .error e => .error e
      | .ok t20 =>
        match amtField (searchPos (amtAt "Total TTC".data) text) with
        | .error e => .error e
        | .ok ttc =>
          .ok ⟨ht, t10, t20, ttc,
            if pieces = [] then none
            else some ((pieces.map Piece.surface).sum)⟩

/-! ## Table structurer `_parse_table` -/

/-- A line-item record as appended to `self.data['lignes']`. -/
structure Ligne where
  numero_ligne : Str
  piece : Option Str
  surface_piece : Option ℚ
  categorie : Option Str
  designation : Str
  description : Str
  quantite : ℚ
  unite : Str
  prix_unitaire_ht : ℚ
  taux_tva : ℚ
  total_ht : ℚ
deriving DecidableEq

/-- The document-level accumulated output (`self.data['pieces']` and
`self.data['lignes']`). -/
structure DocData where
  pieces : List Piece
  lignes : List Ligne
deriving DecidableEq

/-- Table-walk state: the two pieces of running state (local to one
`_parse_table` call) plus the document output. -/
structure TState where
  cur_piece : Option Piece
  cur_cat : Option Str
  doc : DocData
deriving DecidableEq

/-- A table row: its cells, each possibly `None`. -/
abbrev Row := List (Option Str)

/-- The skip tests of the row loop (`not row`, `not row[0]`, the
`DÉSIGNATION` header, and an all-whitespace first cell): `none` when the row
is skipped, otherwise the stripped first cell. -/
def rowLine (row : Row) : Option Str :=
  match row with
  | [] => none
  | cell :: _ =>
    match cell with
    | none => none
    | some s =>
      if s = [] then none
      else
        let line := pyStrip s
        if hasSub "DÉSIGNATION".data line ∨ line = [] then none
        else some line

/-- Model of `designation_et_desc.split('\n', 1)` with both parts stripped; the
description is empty when there is no newline. -/
def splitDesignation (s : Str) : Str × Str :=
  match splitFirst '\n' s with
  | none => (pyStrip s, [])
  | some pr => (pyStrip pr.1, pyStrip pr.2)

/-- The classification of one table row, in the source's cascade order:
skipped row, sub-area header, category header, priced line item, or noise.
The classification depends on the row alone, never on the running state. -/
inductive RowClass where
  | skip : RowClass
  | header (pc : PieceCaps) : RowClass
  | cat (c : Str) : RowClass
  | item (lc : LigneCaps) : RowClass
  | noise : RowClass
deriving DecidableEq

/-- The pattern cascade of `_parse_table` on one non-skipped line: sub-area
header pattern first, then category header, then priced line, first match
wins. -/
def classifyLine (line : Str) : RowClass :=
  match pieceMatch line with
  | some pc => .header pc
  | none =>
    match catMatch line with
    | some c => .cat c
    | none =>
      match ligneMatch line with
      | some lc => .item lc
      | none => .noise

/-- Row classification including the skip tests. -/
def classifyRow (row : Row) : RowClass :=
  match rowLine row with
  | none => .skip
  | some line => classifyLine line

/-- The state/output effect of one classified row. A failing `float()`
conversion raises. -/
def applyClass (st : TState) : RowClass → Except Unit TState
  | .skip => .ok st
  | .noise => .ok st
  | .header pc =>
    match pyFloat pc.surf with
    | none => .error ()
    | some surf =>
      let p : Piece := ⟨pc.num, pyStrip pc.texte, surf⟩
      .ok { st with
        cur_piece := some p,
        doc := { st.doc with pieces :=
          if st.doc.pieces.any (fun q => q.numero = pc.num) then st.doc.pieces
          else st.doc.pieces ++ [p] } }
  | .cat c => .ok { st with cur_cat := some (pyStrip c) }
  | .item lc =>
    match pyFloat (commaDot lc.qte), pyFloat (commaDot lc.prix),
          pyFloat lc.tva, pyFloat (commaDot lc.total) with
    | some q, some pu, some tv, some th =>
      let pr := splitDesignation (pyStrip lc.texte)
      .ok { st with doc := { st.doc with lignes := st.doc.lignes ++
        [⟨lc.numero, st.cur_piece.map Piece.nom, st.cur_piece.map Piece.surface,
          st.cur_cat, pr.1, pr.2, q, lc.unite, pu, tv, th⟩] } }
    | _, _, _, _ => .error ()

/-- One iteration of the row loop. -/
def rowStep (st : TState) (row : Row) : Except Unit TState :=
  applyClass st (classifyRow row)

/-- The row loop over a table. -/
def goRows : TState → List Row → Except Unit TState
  | st, [] => .ok st
  | st, r :: rs =>
    match rowStep st r with
    | .ok st2 => goRows st2 rs
    | .error e => .error e

/-- Model of `_parse_table`: tables with fewer than two rows are ignored; otherwise
the rows are walked with `current_piece`/`current_category` freshly reset to
`None`. -/
def parseTable (doc : DocData) (table : List Row) : Except Unit DocData :=
  if table.length < 2 then .ok doc
  else
    match goRows ⟨none, none, doc⟩ table with
    | .ok st => .ok st.doc
    | .error e => .error e

/-- The per-document iteration of `parse()` over every table of every page,
in order. -/
def parseTables : DocData → List (List Row) → Except Unit DocData
  | doc, [] => .ok doc
  | doc, t :: ts =>
    match parseTable doc t with
    | .ok d2 => parseTables d2 ts
    | .error e => .error e

/-- Whole-document table processing, starting from empty output. -/
def processTables (tables : List (List Row)) : Except Unit DocData :=
  parseTables ⟨[], []⟩ tables

/-! ## Batch driver `test_parser_batch` -/

/-- The parts of one parsed document that the batch report reads. -/
structure ParsedDoc where
  metadata : Metadata
  client : Client
  pieces : List Piece
  lignes : List Ligne
  montants : Montants
deriving DecidableEq

/-- One report row of `test_parser_batch`. -/
structure ReportRow where
  fichier : Str
  succes : Bool
  numero_devis : Option Str
  client_nom : Option Str
  client_ville : Option Str
  nb_pieces : Nat
  nb_lignes : Nat
  montant_ht : ℚ
  montant_ttc : ℚ
  erreur : Option Str
deriving DecidableEq

/-- The body of the per-file loop: the row starts from its defaults
(`succes=False`, counts 0, `erreur=None`); a successful parse fills the data
fields and sets the flag, an exception only records its message. -/
def mkRow (f : Str) (r : Except Str ParsedDoc) : ReportRow :=
  match r with
  | .error e => ⟨f, false, none, none, none, 0, 0, 0, 0, some e⟩
  | .ok d =>
    ⟨f, true, d.metadata.numero_devis, d.client.nom, d.client.ville,
     d.pieces.length, d.lignes.length,
     d.montants.total_ht.getD 0, d.montants.total_ttc.getD 0, none⟩

/-- Model of `test_parser_batch` over a directory listing: each file comes with the
outcome of parsing it (a parsed document, or the raised exception's message);
the loop appends one row per file and never aborts. -/
def testParserBatch (files : List (Str × Except Str ParsedDoc)) : List ReportRow :=
  files.foldl (fun acc pr => acc ++ [mkRow pr.1 pr.2]) []

/-! ## Helper lemmas -/

instance {ε α : Type} [DecidableEq ε] [DecidableEq α] : DecidableEq (Except ε α) := fun a b =>
  match a, b with
  | .error x, .error y =>
    if h : x = y then .isTrue (by rw [h]) else .isFalse (fun k => h (Except.error.inj k))
  | .ok x, .ok y =>
    if h : x = y then .isTrue (by rw [h]) else .isFalse (fun k => h (Except.ok.inj k))
  | .error _, .ok _ => .isFalse (fun k => Except.noConfusion k)
  | .ok _, .error _ => .isFalse (fun k => Except.noConfusion k)

/-- The batch fold is a map: one row per input file, in order. -/
lemma testParserBatch_eq_map (files : List (Str × Except Str ParsedDoc)) :
    testParserBatch files = files.map (fun pr => mkRow pr.1 pr.2) := by
  have h : ∀ (fs : List (Str × Except Str ParsedDoc)) (acc : List ReportRow),
      fs.foldl (fun acc pr => acc ++ [mkRow pr.1 pr.2]) acc =
        acc ++ fs.map (fun pr => mkRow pr.1 pr.2) := by
    intro fs
    induction fs with
    | nil => intro acc; simp
    | cons p ps ih => intro acc; simp [ih]
  simpa using h files []

/-- A successful row effect never changes `current_category` unless the row
classified as a category header. -/
lemma applyClass_cat_preserved {st st2 : TState} {rc : RowClass}
    (h : applyClass st rc = .ok st2) (hc : ∀ c, rc ≠ .cat c) :
    st2.cur_cat = st.cur_cat := by
  cases rc with
  | skip => simp only [applyClass, Except.ok.injEq] at h; rw [← h]
  | noise => simp only [applyClass, Except.ok.injEq] at h; rw [← h]
  | cat c => exact absurd rfl (hc c)
  | header pc =>
    simp only [applyClass] at h
    split at h
    · exact absurd h (by simp)
    · simp only [Except.ok.injEq] at h; rw [← h]
  | item lc =>
    simp only [applyClass] at h
    split at h
    · simp only [Except.ok.injEq] at h; rw [← h]
    · exact absurd h (by simp)

/-- A successful row effect only appends to the line-item output. -/
lemma applyClass_lignes_mono {st st2 : TState} {rc : RowClass}
    (h : applyClass st rc = .ok st2) :
    ∀ x ∈ st.doc.lignes, x ∈ st2.doc.lignes := by
  cases rc with
  | skip => simp only [applyClass, Except.ok.injEq] at h; rw [← h]; exact fun x hx => hx
  | noise => simp only [applyClass, Except.ok.injEq] at h; rw [← h]; exact fun x hx => hx
  | cat c => simp only [applyClass, Except.ok.injEq] at h; rw [← h]; exact fun x hx => hx
  | header pc =>
    simp only [applyClass] at h
    split at h
    · exact absurd h (by simp)
    · simp only [Except.ok.injEq] at h; rw [← h]; exact fun x hx => hx
  | item lc =>
    simp only [applyClass] at h
    split at h
    · simp only [Except.ok.injEq] at h
      rw [← h]
      exact fun x hx => List.mem_append_left _ hx
    · exact absurd h (by simp)

/-- A successful row effect preserves distinctness of the sub-area ids:
the only append is guarded by the absence of the id. -/
lemma applyClass_distinct {st st2 : TState} {rc : RowClass}
    (h : applyClass st rc = .ok st2)
    (hd : st.doc.pieces.Pairwise (fun p q => p.numero ≠ q.numero)) :
    st2.doc.pieces.Pairwise (fun p q => p.numero ≠ q.numero) := by
  cases rc with
  | skip => simp only [applyClass, Except.ok.injEq] at h; rw [← h]; exact hd
  | noise => simp only [applyClass, Except.ok.injEq] at h; rw [← h]; exact hd
  | cat c => simp only [applyClass, Except.ok.injEq] at h; rw [← h]; exact hd
  | item lc =>
    simp only [applyClass] at h
    split at h
    · simp only [Except.ok.injEq] at h; rw [← h]; exact hd
    · exact absurd h (by simp)
  | header pc =>
    simp only [applyClass] at h
    split at h
    · exact absurd h (by simp)
    · simp only [Except.ok.injEq] at h
      rw [← h]
      by_cases hany : st.doc.pieces.any (fun q => q.numero = pc.num) = true
      · simpa [hany] using hd
      · rw [if_neg hany, List.pairwise_append]
        refine ⟨hd, by simp, ?_⟩
        intro a ha b hb
        simp only [List.mem_singleton] at hb
        subst hb
        simp only [ne_eq]
        intro hcontra
        simp only [List.any_eq_true, decide_eq_true_eq, not_exists, not_and] at hany
        exact hany a ha hcontra

/-- The effect of a category header row: set `current_category` to the
stripped capture, touch nothing else. -/
lemma applyClass_cat_set (st : TState) (c : Str) :
    applyClass st (.cat c) = .ok { st with cur_cat := some (pyStrip c) } := rfl

/-- The record appended for a priced line row: numbering and numeric fields
from the row's captures, sub-area and category from the running state. -/
def emittedLigne (st : TState) (lc : LigneCaps) (q pu tv th : ℚ) : Ligne :=
  ⟨lc.numero, st.cur_piece.map Piece.nom, st.cur_piece.map Piece.surface, st.cur_cat,
   (splitDesignation (pyStrip lc.texte)).1, (splitDesignation (pyStrip lc.texte)).2,
   q, lc.unite, pu, tv, th⟩

/-- The effect of a priced line row whose four numeric captures parse. -/
lemma applyClass_item_emits {st : TState} {lc : LigneCaps} {q pu tv th : ℚ}
    (hq : pyFloat (commaDot lc.qte) = some q)
    (hpu : pyFloat (commaDot lc.prix) = some pu)
    (htv : pyFloat lc.tva = some tv)
    (hth : pyFloat (commaDot lc.total) = some th) :
    applyClass st (.item lc) =
      .ok { st with doc := { st.doc with
              lignes := st.doc.lignes ++ [emittedLigne st lc q pu tv th] } } := by
  simp [applyClass, hq, hpu, htv, hth, emittedLigne]

/-- The effect of a sub-area header row whose id is already in the output:
the output is unchanged, only the running sub-area is replaced. -/
lemma applyClass_header_dup {st : TState} {pc : PieceCaps} {surf : ℚ}
    (hf : pyFloat pc.surf = some surf)
    (hany : st.doc.pieces.any (fun q => q.numero = pc.num) = true) :
    applyClass st (.header pc) =
      .ok { st with cur_piece := some ⟨pc.num, pyStrip pc.texte, surf⟩ } := by
  simp [applyClass, hf, hany]

/-- Splitting a successful row walk at a list append. -/
lemma goRows_append_ok {xs ys : List Row} {st out : TState}
    (h : goRows st (xs ++ ys) = .ok out) :
    ∃ stm, goRows st xs = .ok stm ∧ goRows stm ys = .ok out := by
  induction xs generalizing st with
  | nil => exact ⟨st, rfl, h⟩
  | cons r rs ih =>
    simp only [List.cons_append, goRows] at h ⊢
    cases hr : rowStep st r with
    | error e => rw [hr] at h; exact absurd h (by simp)
    | ok st2 => rw [hr] at h; exact ih h

/-- A successful row walk without category header rows does not change
`current_category`. -/
lemma goRows_cat_preserved {rs : List Row} {st out : TState}
    (h : goRows st rs = .ok out)
    (hc : ∀ r ∈ rs, ∀ c, classifyRow r ≠ RowClass.cat c) :
    out.cur_cat = st.cur_cat := by
  induction rs generalizing st with
  | nil => simp only [goRows, Except.ok.injEq] at h; rw [← h]
  | cons r rs ih =>
    simp only [goRows] at h
    cases hr : rowStep st r with
    | error e => rw [hr] at h; exact absurd h (by simp)
    | ok st2 =>
      rw [hr] at h
      have hr2 : applyClass st (classifyRow r) = .ok st2 := hr
      have hcat := applyClass_cat_preserved hr2 (hc r (List.mem_cons_self r rs))
      rw [ih h (fun r2 h2 => hc r2 (List.mem_cons_of_mem _ h2))]
      exact hcat

/-- A successful row walk only appends to the line-item output. -/
lemma goRows_lignes_mono {rs : List Row} {st out : TState}
    (h : goRows st rs = .ok out) :
    ∀ x ∈ st.doc.lignes, x ∈ out.doc.lignes := by
  induction rs generalizing st with
  | nil =>
    simp only [goRows, Except.ok.injEq] at h
    rw [← h]; exact fun x hx => hx
  | cons r rs ih =>
    simp only [goRows] at h
    cases hr : rowStep st r with
    | error e => rw [hr] at h; exact absurd h (by simp)
    | ok st2 =>
      rw [hr] at h
      have hr2 : applyClass st (classifyRow r) = .ok st2 := hr
      exact fun x hx => ih h x (applyClass_lignes_mono hr2 x hx)

/-- A successful row walk preserves distinctness of the sub-area ids. -/
lemma goRows_distinct {rs : List Row} {st out : TState}
    (h : goRows st rs = .ok out)
    (hd : st.doc.pieces.Pairwise (fun p q => p.numero ≠ q.numero)) :
    out.doc.pieces.Pairwise (fun p q => p.numero ≠ q.numero) := by
  induction rs generalizing st with
  | nil => simp only [goRows, Except.ok.injEq] at h; rw [← h]; exact hd
  | cons r rs ih =>
    simp only [goRows] at h
    cases hr : rowStep st r with
    | error e => rw [hr] at h; exact absurd h (by simp)
    | ok st2 =>
      rw [hr] at h
      have hr2 : applyClass st (classifyRow r) = .ok st2 := hr
      exact ih h (applyClass_distinct hr2 hd)

/-- One table preserves distinctness of the sub-area ids. -/
lemma parseTable_distinct {doc : DocData} {table : List Row} {d2 : DocData}
    (h : parseTable doc table = .ok d2)
    (hd : doc.pieces.Pairwise (fun p q => p.numero ≠ q.numero)) :
    d2.pieces.Pairwise (fun p q => p.numero ≠ q.numero) := by
  unfold parseTable at h
  split at h
  · simp only [Except.ok.injEq] at h; rw [← h]; exact hd
  · cases hg : goRows ⟨none, none, doc⟩ table with
    | error e => rw [hg] at h; exact absurd h (by simp)
    | ok st =>
      rw [hg] at h
      simp only [Except.ok.injEq] at h
      rw [← h]
      exact goRows_distinct hg hd

/-- A whole table sequence preserves distinctness of the sub-area ids. -/
lemma parseTables_distinct {tables : List (List Row)} {doc d2 : DocData}
    (h : parseTables doc tables = .ok d2)
    (hd : doc.pieces.Pairwise (fun p q => p.numero ≠ q.numero)) :
    d2.pieces.Pairwise (fun p q => p.numero ≠ q.numero) := by
  induction tables generalizing doc with
  | nil => simp only [parseTables, Except.ok.injEq] at h; rw [← h]; exact hd
  | cons t ts ih =>
    simp only [parseTables] at h
    cases ht : parseTable doc t with
    | error e => rw [ht] at h; exact absurd h (by simp)
    | ok dmid =>
      rw [ht] at h
      exact ih h (parseTable_distinct ht hd)

/-- Within one successfully processed table, a category header's captured
phrase is carried onto every later priced line of the same table as long as
no further category header intervenes. -/
lemma parseTable_cat_persist {doc d2 : DocData} {pre mid rest : List Row}
    {crow lrow : Row} {cg : Str} {lc : LigneCaps} {q pu tv th : ℚ}
    (h : parseTable doc (pre ++ crow :: mid ++ lrow :: rest) = .ok d2)
    (hcrow : classifyRow crow = .cat cg)
    (hmid : ∀ r ∈ mid, ∀ c, classifyRow r ≠ RowClass.cat c)
    (hlrow : classifyRow lrow = .item lc)
    (hq : pyFloat (commaDot lc.qte) = some q)
    (hpu : pyFloat (commaDot lc.prix) = some pu)
    (htv : pyFloat lc.tva = some tv)
    (hth : pyFloat (commaDot lc.total) = some th) :
    ∃ item ∈ d2.lignes,
      item.numero_ligne = lc.numero ∧ item.categorie = some (pyStrip cg) := by
  have hlen : ¬ (pre ++ crow :: mid ++ lrow :: rest).length < 2 := by
    simp only [List.length_append, List.length_cons]
    omega
  unfold parseTable at h
  rw [if_neg hlen] at h
  cases hg : goRows ⟨none, none, doc⟩ (pre ++ crow :: mid ++ lrow :: rest) with
  | error e => rw [hg] at h; exact absurd h (by simp)
  | ok out =>
    rw [hg] at h
    simp only [Except.ok.injEq] at h
    subst h
    obtain ⟨st2, hpcm, hlr⟩ := goRows_append_ok hg
    obtain ⟨stm, hpre, hcm⟩ := goRows_append_ok hpcm
    have hstep : rowStep stm crow = .ok { stm with cur_cat := some (pyStrip cg) } := by
      unfold rowStep
      rw [hcrow]
      rfl
    simp only [goRows] at hcm
    rw [hstep] at hcm
    have hcm2 : goRows { stm with cur_cat := some (pyStrip cg) } mid = .ok st2 := hcm
    have st2cat : st2.cur_cat = some (pyStrip cg) := by
      simpa using goRows_cat_preserved hcm2 hmid
    have hstep2 : rowStep st2 lrow =
        .ok { st2 with doc := { st2.doc with
                lignes := st2.doc.lignes ++ [emittedLigne st2 lc q pu tv th] } } := by
      unfold rowStep
      rw [hlrow]
      exact applyClass_item_emits hq hpu htv hth
    simp only [goRows] at hlr
    rw [hstep2] at hlr
    have hlr2 : goRows { st2 with doc := { st2.doc with
        lignes := st2.doc.lignes ++ [emittedLigne st2 lc q pu tv th] } } rest = .ok out := hlr
    refine ⟨emittedLigne st2 lc q pu tv th, ?_, rfl, ?_⟩
    · exact goRows_lignes_mono hlr2 _ (by simp)
    · simpa [emittedLigne] using st2cat

/-- The strategy 1 lookahead never touches the already-assigned name. -/
lemma look1_nom (c : Client) (ls : List Str) : (look1 c ls).nom = c.nom := by
  induction ls generalizing c with
  | nil => rfl
  | cons l ls ih =>
    unfold look1
    dsimp only
    split
    · exact ih c
    · split
      · exact ih _
      · split
        · rfl
        · exact ih c

/-- If no earlier line matches any strategy anchor, the first line whose
strategy 1 search succeeds determines the client name. -/
lemma clientLoop_strat1 (pre : List Str) :
    ∀ (rest : List Str) (l g : Str) (c : Client),
      (∀ p ∈ pre, strat1Search (pyStrip p) = none ∧ strat2Test (pyStrip p) = false ∧
        strat3Test (pyStrip p) = false) →
      strat1Search (pyStrip l) = some g →
      (clientLoop (pre ++ l :: rest) c).nom = some (pyStrip g) := by
  induction pre with
  | nil =>
    intro rest l g c _ hl
    simp only [List.nil_append]
    unfold clientLoop
    simp [hl, look1_nom]
  | cons p ps ih =>
    intro rest l g c hpre hl
    obtain ⟨h1, h2, h3⟩ := hpre p (List.mem_cons_self _ _)
    simp only [List.cons_append]
    unfold clientLoop
    simp only [h1, h2, h3, Bool.false_eq_true, if_false]
    exact ih rest l g c (fun q hq => hpre q (List.mem_cons_of_mem _ hq)) hl

/-- A successful totals field is present exactly when its search matched. -/
lemma amtField_ok_isSome {g : Option Str} {v : Option ℚ} (h : amtField g = .ok v) :
    v.isSome = g.isSome := by
  cases g with
  | none => simp only [amtField, Except.ok.injEq] at h; rw [← h]; rfl
  | some s =>
    simp only [amtField] at h
    cases hf : pyFloat (cleanAmt s) with
    | none => rw [hf] at h; exact absurd h (by simp)
    | some w => rw [hf] at h; simp only [Except.ok.injEq] at h; rw [← h]; rfl

/-- Capture classes of the tail groups: unit price and line total captures
consist of digits and commas only. -/
lemma ligneAfterQty_classes {t : Str} {g4 g5 g6 g7 : Str}
    (h : ligneAfterQty t = some (g4, g5, g6, g7)) :
    (∀ c ∈ g5, isDigitComma c = true) ∧ (∀ c ∈ g7, isDigitComma c = true) := by
  simp only [ligneAfterQty, spanP] at h
  repeat (split at h <;> try exact Option.noConfusion h)
  simp only [Option.some.injEq, Prod.mk.injEq] at h
  obtain ⟨h4, h5, h6, h7⟩ := h
  subst h5
  subst h7
  exact ⟨fun c hc => List.mem_takeWhile_imp hc, fun c hc => List.mem_takeWhile_imp hc⟩

/-- A successful candidate scan succeeds on one of its candidates. -/
lemma firstSome_some {f : α → Option β} {l : List α} {b : β}
    (h : firstSome f l = some b) : ∃ a ∈ l, f a = some b := by
  induction l with
  | nil => exact Option.noConfusion h
  | cons x xs ih =>
    simp only [firstSome] at h
    cases hx : f x with
    | some y =>
      rw [hx] at h
      simp only [Option.some.injEq] at h
      exact ⟨x, List.mem_cons_self _ _, by rw [hx, h]⟩
    | none =>
      rw [hx] at h
      obtain ⟨a, ha, hfa⟩ := ih h
      exact ⟨a, List.mem_cons_of_mem _ ha, hfa⟩

/-- A successful lazy scan never captures a newline, and its continuation
result is a genuine continuation success. -/
lemma lazyScan_some {cont : Str → Option α} {t g : Str} {a : α}
    (h : lazyScan cont t = some (g, a)) :
    (∀ c ∈ g, c ≠ '\n') ∧ ∃ t2, cont t2 = some a := by
  induction t generalizing g with
  | nil => exact Option.noConfusion h
  | cons c rest ih =>
    simp only [lazyScan] at h
    by_cases hc : c = '\n'
    · rw [if_pos hc] at h; exact Option.noConfusion h
    · rw [if_neg hc] at h
      cases hcont : cont rest with
      | some a2 =>
        rw [hcont] at h
        simp only [Option.some.injEq, Prod.mk.injEq] at h
        obtain ⟨hg, ha⟩ := h
        subst hg
        subst ha
        refine ⟨?_, rest, hcont⟩
        intro x hx
        rw [List.mem_singleton] at hx
        subst hx
        exact hc
      | none =>
        rw [hcont] at h
        cases hls : lazyScan cont rest with
        | none => rw [hls] at h; exact Option.noConfusion h
        | some pr =>
          rw [hls] at h
          obtain ⟨g2, a2⟩ := pr
          simp only [Option.some.injEq, Prod.mk.injEq] at h
          obtain ⟨hg, ha⟩ := h
          subst ha
          obtain ⟨hnl, hex⟩ := ih hls
          subst hg
          refine ⟨?_, hex⟩
          intro x hx
          rcases List.mem_cons.mp hx with hx1 | hx2
          · subst hx1; exact hc
          · exact hnl x hx2

/-- Characters of a digit span are not spaces. -/
lemma digit_no_space {t : Str} {c : Char} (hc : c ∈ t.takeWhile isDigitC) :
    c ≠ ' ' := by
  intro heq
  have hd := List.mem_takeWhile_imp hc
  rw [heq] at hd
  exact absurd hd (by decide)

/-- Digit-or-comma characters are not spaces. -/
lemma digitComma_no_space {c : Char} (hc : isDigitComma c = true) : c ≠ ' ' := by
  intro heq
  rw [heq] at hc
  exact absurd hc (by decide)

/-- Inversion of the pairing map used in `ligneQty`. -/
lemma optMapPair {o : Option (Str × Str × Str × Str)} {d g3 : Str}
    {r : Str × Str × Str × Str}
    (h : o.map (fun x => (d, x)) = some (g3, r)) : g3 = d ∧ o = some r := by
  cases o with
  | none => exact Option.noConfusion h
  | some x =>
    simp only [Option.map_some', Option.some.injEq, Prod.mk.injEq] at h
    exact ⟨h.1.symm, by rw [h.2]⟩

/-- The quantity capture has no spaces, and a successful quantity parse
contains a successful tail parse. -/
lemma ligneQty_shape {t g3 : Str} {r : Str × Str × Str × Str}
    (h : ligneQty t = some (g3, r)) :
    (∀ c ∈ g3, c ≠ ' ') ∧ ∃ t2, ligneAfterQty t2 = some r := by
  simp only [ligneQty, spanP] at h
  repeat (split at h <;> try exact Option.noConfusion h)
  case _ c t2 hsep f hf r2 hr2 =>
    simp only [Option.some.injEq, Prod.mk.injEq] at h
    obtain ⟨hg, hr⟩ := h
    subst hg
    subst hr
    refine ⟨?_, _, hr2⟩
    intro x hx
    rcases List.mem_append.mp hx with hx1 | hx1
    · exact digit_no_space hx1
    · rcases List.mem_cons.mp hx1 with hx2 | hx2
      · subst hx2
        rcases hsep with hs | hs <;> (subst hs; decide)
      · exact digit_no_space hx2
  all_goals
    obtain ⟨hg, ho⟩ := optMapPair h
    subst hg
    exact ⟨fun c hc => digit_no_space hc, _, ho⟩

/-- Captured groups of a matched priced line: the free-text capture can never
contain a newline (the dot of the pattern does not cross line breaks), the
quantity capture has no spaces, and the unit-price and line-total captures
are digits and commas only. -/
lemma ligneMatch_captures {line : Str} {lc : LigneCaps}
    (h : ligneMatch line = some lc) :
    (∀ c ∈ lc.texte, c ≠ '\n') ∧ (∀ c ∈ lc.qte, c ≠ ' ') ∧
    (∀ c ∈ lc.prix, isDigitComma c = true) ∧
    (∀ c ∈ lc.total, isDigitComma c = true) := by
  simp only [ligneMatch, spanP] at h
  repeat (split at h <;> try exact Option.noConfusion h)
  obtain ⟨start, hmem, hstart⟩ := firstSome_some h
  rw [Option.map_eq_some'] at hstart
  obtain ⟨pr, hls, hlc⟩ := hstart
  obtain ⟨texteC, qteC, uniteC, prixC, tvaC, totalC⟩ := pr
  subst hlc
  obtain ⟨hnl, t3, hq⟩ := lazyScan_some hls
  obtain ⟨hqte, t4, hafter⟩ := ligneQty_shape hq
  obtain ⟨hprix, htotal⟩ := ligneAfterQty_classes hafter
  exact ⟨hnl, hqte, hprix, htotal⟩

/-- On space-free text the line-item conversion (comma to dot only) agrees
with the totals conversion (strip spaces, then comma to dot). -/
lemma commaDot_eq_cleanAmt {s : Str} (hs : ∀ c ∈ s, c ≠ ' ') :
    commaDot s = cleanAmt s := by
  unfold cleanAmt
  rw [List.filter_eq_self.mpr]
  intro a ha
  simpa using hs a ha

/-! ## Concrete fixtures -/

/-- A category header row ("1.1 Peinture"). -/
def catHeaderRow : Row := [some "1.1 Peinture".data]

/-- A priced line row ("1.1.1 Travaux 2 u 10,00 € 10.0 % 20,00 €"). -/
def ligneRow : Row := [some "1.1.1 Travaux 2 u 10,00 € 10.0 % 20,00 €".data]

/-- A padding row with an empty (None) first cell: skipped by the row walk
but counted towards the two-row minimum. -/
def padRow : Row := [none]

/-- The line-item record produced for `ligneRow` when no sub-area and no
category are current. -/
def travauxLigne : Ligne :=
  ⟨"1.1.1".data, none, none, none, "Travaux".data, [], decimalQ 2 0, "u".data,
   decimalQ 1000 2, decimalQ 100 1, decimalQ 2000 2⟩

/-- The last-page text of end-to-end scenario C. -/
def scenarioCText : Str := "Total net HT 1 000,00 €\nTotal TTC 1 100,00 €".data

/-! ## Claim theorems -/

/-- C1, counterexample: the running state does NOT persist across table
boundaries. A category header row ("1.1 Peinture") in one table followed by
a priced line row in a later table of the same document, with no
intervening category or sub-area header, yields a line item whose category
is `None` — not the earlier header's captured phrase. -/
theorem C1_counterexample :
    processTables [[catHeaderRow, padRow], [ligneRow, padRow]] =
      .ok ⟨[], [travauxLigne]⟩ ∧
    travauxLigne.categorie = none ∧
    classifyRow catHeaderRow = .cat "Peinture".data ∧
    classifyRow ligneRow =
      .item ⟨"1.1.1".data, "Travaux".data, "2".data, "u".data,
             "10,00".data, "10.0".data, "20,00".data⟩ := by
  refine ⟨by decide, by decide, by decide, by decide⟩

/-- C1, amended: `current_piece`/`current_category` are reset at the start of
EVERY `_parse_table` call (hence at every table and page boundary), not once
per document; within one table the captured category phrase does persist
across rows onto every later priced line until the next category header. -/
theorem C1_category_state_per_table :
    (∀ (doc : DocData) (table : List Row),
       parseTable doc table =
         if table.length < 2 then .ok doc
         else
           match goRows ⟨none, none, doc⟩ table with
           | .ok st => .ok st.doc
           | .error e => .error e) ∧
    (∀ (doc d2 : DocData) (pre mid rest : List Row) (crow lrow : Row)
       (cg : Str) (lc : LigneCaps) (q pu tv th : ℚ),
       parseTable doc (pre ++ crow :: mid ++ lrow :: rest) = .ok d2 →
       classifyRow crow = .cat cg →
       (∀ r ∈ mid, ∀ c, classifyRow r ≠ RowClass.cat c) →
       classifyRow lrow = .item lc →
       pyFloat (commaDot lc.qte) = some q →
       pyFloat (commaDot lc.prix) = some pu →
       pyFloat lc.tva = some tv →
       pyFloat (commaDot lc.total) = some th →
       ∃ item ∈ d2.lignes,
         item.numero_ligne = lc.numero ∧ item.categorie = some (pyStrip cg)) :=
  ⟨fun _ _ => rfl,
   fun _ _ _ _ _ _ _ _ _ _ _ _ _ h h1 h2 h3 h4 h5 h6 h7 =>
     parseTable_cat_persist h h1 h2 h3 h4 h5 h6 h7⟩

/-- C1, witness: the amended persistence applied to the concrete one-table
document [category header; priced line]. -/
theorem C1_category_state_per_table_witness :
    ∃ item ∈ (⟨[], [⟨"1.1.1".data, none, none, some "Peinture".data, "Travaux".data, [],
        decimalQ 2 0, "u".data, decimalQ 1000 2, decimalQ 100 1,
        decimalQ 2000 2⟩]⟩ : DocData).lignes,
      item.numero_ligne = "1.1.1".data ∧
      item.categorie = some (pyStrip "Peinture".data) :=
  C1_category_state_per_table.2 ⟨[], []⟩
    ⟨[], [⟨"1.1.1".data, none, none, some "Peinture".data, "Travaux".data, [],
      decimalQ 2 0, "u".data, decimalQ 1000 2, decimalQ 100 1, decimalQ 2000 2⟩]⟩
    [] [] [] catHeaderRow ligneRow "Peinture".data
    ⟨"1.1.1".data, "Travaux".data, "2".data, "u".data, "10,00".data, "10.0".data, "20,00".data⟩
    (decimalQ 2 0) (decimalQ 1000 2) (decimalQ 100 1) (decimalQ 2000 2)
    (by decide) (by decide)
    (by intro r hr c; exact absurd hr (List.not_mem_nil r))
    (by decide) (by decide) (by decide) (by decide) (by decide)

/-- C2, counterexample: a line matching only strategy 3's anchor ("Jean
Dupont", bare capitalized multi-word, no title) that appears BEFORE a line
matching strategy 1's anchor ("M. Pierre Martin") wins: the extractor
returns "Jean Dupont", not strategy 1's capture "Pierre Martin", so strategy
priority does not override line order. -/
theorem C2_counterexample :
    (extractClientInfo "Jean Dupont\nM. Pierre Martin".data).nom =
      some "Jean Dupont".data ∧
    strat1Search (pyStrip "M. Pierre Martin".data) = some "Pierre Martin".data ∧
    strat1Search (pyStrip "Jean Dupont".data) = none ∧
    strat2Test (pyStrip "Jean Dupont".data) = false ∧
    strat3Test (pyStrip "Jean Dupont".data) = true ∧
    "Jean Dupont".data ≠ "Pierre Martin".data := by
  refine ⟨by decide, by decide, by decide, by decide, by decide, by decide⟩

/-- C2, amended: the scan is per line, first matching line wins; strategy
priority applies only within a single line. If no earlier line matches any
of the three anchors, the first line whose strategy 1 search succeeds
determines the client name (the loop breaks there regardless of the
lookahead's outcome), and the final result exposes exactly the loop's name
field. -/
theorem C2_first_matching_line_wins :
    (∀ text : Str,
       (extractClientInfo text).nom = (clientLoop (splitLines text) emptyClient).nom) ∧
    (∀ (pre rest : List Str) (l g : Str) (c : Client),
       (∀ p ∈ pre, strat1Search (pyStrip p) = none ∧ strat2Test (pyStrip p) = false ∧
         strat3Test (pyStrip p) = false) →
       strat1Search (pyStrip l) = some g →
       (clientLoop (pre ++ l :: rest) c).nom = some (pyStrip g)) :=
  ⟨fun _ => rfl, fun pre rest l g c h1 h2 => clientLoop_strat1 pre rest l g c h1 h2⟩

/-- C2, witness: the amended first-match rule applied to a concrete line
list whose first line matches no anchor. -/
theorem C2_first_matching_line_wins_witness :
    (clientLoop (["- - -".data] ++ "M. Jean Dupont".data :: []) emptyClient).nom =
      some (pyStrip "Jean Dupont".data) :=
  C2_first_matching_line_wins.2 ["- - -".data] [] "M. Jean Dupont".data
    "Jean Dupont".data emptyClient (by decide) (by decide)

/-- C3: the emitted sub-area sequence always has pairwise distinct sequence
ids; a header row re-using an id already in the output leaves the output
untouched (first occurrence's name and area retained, the running sub-area
still updated); and the concrete two-page duplicate scenario (same id "1",
different names and areas) yields exactly the first occurrence. -/
theorem C3_subarea_ids_unique :
    (∀ (tables : List (List Row)) (d : DocData),
       processTables tables = .ok d →
       d.pieces.Pairwise (fun p q => p.numero ≠ q.numero)) ∧
    (∀ (st : TState) (pc : PieceCaps) (surf : ℚ),
       pyFloat pc.surf = some surf →
       st.doc.pieces.any (fun q => q.numero = pc.num) = true →
       applyClass st (.header pc) =
         .ok { st with cur_piece := some ⟨pc.num, pyStrip pc.texte, surf⟩ }) ∧
    processTables [[[some "1 Salon - 10.5 m²".data], padRow],
                   [[some "1 Chambre - 99 m²".data], padRow]] =
      .ok ⟨[⟨"1".data, "Salon".data, decimalQ 105 1⟩], []⟩ :=
  ⟨fun _ _ h => parseTables_distinct h List.Pairwise.nil,
   fun _ _ _ hf hany => applyClass_header_dup hf hany,
   by decide⟩

/-- C3, witness: uniqueness and duplicate-retention applied to the concrete
duplicate-id document. -/
theorem C3_subarea_ids_unique_witness :
    ([⟨"1".data, "Salon".data, decimalQ 105 1⟩] : List Piece).Pairwise
      (fun p q => p.numero ≠ q.numero) ∧
    applyClass ⟨none, none, ⟨[⟨"1".data, "Salon".data, decimalQ 105 1⟩], []⟩⟩
        (.header ⟨"1".data, "Chambre".data, "99".data⟩) =
      .ok ⟨some ⟨"1".data, "Chambre".data, decimalQ 99 0⟩, none,
           ⟨[⟨"1".data, "Salon".data, decimalQ 105 1⟩], []⟩⟩ :=
  ⟨C3_subarea_ids_unique.1
     [[[some "1 Salon - 10.5 m²".data], padRow], [[some "1 Chambre - 99 m²".data], padRow]]
     ⟨[⟨"1".data, "Salon".data, decimalQ 105 1⟩], []⟩ (by decide),
   C3_subarea_ids_unique.2.1 ⟨none, none, ⟨[⟨"1".data, "Salon".data, decimalQ 105 1⟩], []⟩⟩
     ⟨"1".data, "Chambre".data, "99".data⟩ (decimalQ 99 0) (by decide) (by decide)⟩

/-- C4, counterexample: a table with a single row is skipped wholesale even
though its row is a classifiable sub-area header able to set state — the
same row inside a two-row table does produce the sub-area. -/
theorem C4_counterexample :
    parseTable ⟨[], []⟩ [[some "1 Salon - 10.5 m²".data]] = .ok ⟨[], []⟩ ∧
    classifyRow [some "1 Salon - 10.5 m²".data] =
      .header ⟨"1".data, "Salon".data, "10.5".data⟩ ∧
    parseTable ⟨[], []⟩ [[some "1 Salon - 10.5 m²".data], padRow] =
      .ok ⟨[⟨"1".data, "Salon".data, decimalQ 105 1⟩], []⟩ := by
  refine ⟨by decide, by decide, by decide⟩

/-- C4, amended: tables with fewer than two rows are ignored wholesale; every
table with at least two rows has every one of its rows walked through the
classify/apply cascade; a row is left unclassified (skip, no state change)
exactly when the row is empty, its first cell is None or the empty string,
or the first cell strips to empty or carries the DÉSIGNATION header label. -/
theorem C4_row_walk :
    (∀ (doc : DocData) (table : List Row), table.length < 2 →
       parseTable doc table = .ok doc) ∧
    (∀ (doc : DocData) (table : List Row), 2 ≤ table.length →
       parseTable doc table =
         match goRows ⟨none, none, doc⟩ table with
         | .ok st => .ok st.doc
         | .error e => .error e) ∧
    (∀ (st : TState) (row : Row), rowStep st row = applyClass st (classifyRow row)) ∧
    (∀ (st : TState) (row : Row), classifyRow row = .skip → rowStep st row = .ok st) ∧
    (∀ row : Row, classifyRow row = .skip ↔ rowLine row = none) ∧
    (∀ (s : Str) (cells : List (Option Str)),
       rowLine (some s :: cells) =
         if hasSub "DÉSIGNATION".data (pyStrip s) ∨ pyStrip s = [] then none
         else some (pyStrip s)) ∧
    (∀ cells : List (Option Str), rowLine (none :: cells) = none) ∧
    rowLine ([] : Row) = none := by
  refine ⟨?_, ?_, fun st row => rfl, ?_, ?_, ?_, fun cells => rfl, rfl⟩
  · intro doc table hlen
    unfold parseTable
    rw [if_pos hlen]
  · intro doc table hlen
    unfold parseTable
    rw [if_neg (by omega)]
  · intro st row hskip
    unfold rowStep
    rw [hskip]
    rfl
  · intro row
    cases hr : rowLine row with
    | none => simp [classifyRow, hr]
    | some l =>
      simp only [classifyRow, hr, Option.some.injEq]
      constructor
      · intro hcl
        cases hp : pieceMatch l <;> cases hc : catMatch l <;> cases hl2 : ligneMatch l <;>
          simp [classifyLine, hp, hc, hl2] at hcl
      · intro hcontra
        exact absurd hcontra (by simp)
  · intro s cells
    cases s with
    | nil => simp [rowLine, pyStrip]
    | cons a as => simp [rowLine]

/-- C4, witness: the amended row-walk rules applied to a singleton table and
to a two-row table. -/
theorem C4_row_walk_witness :
    parseTable ⟨[], []⟩ [padRow] = .ok ⟨[], []⟩ ∧
    parseTable ⟨[], []⟩ [catHeaderRow, padRow] =
      (match goRows ⟨none, none, (⟨[], []⟩ : DocData)⟩ [catHeaderRow, padRow] with
       | .ok st => .ok st.doc
       | .error e => .error e) ∧
    rowStep ⟨none, none, ⟨[], []⟩⟩ padRow = .ok ⟨none, none, ⟨[], []⟩⟩ :=
  ⟨C4_row_walk.1 ⟨[], []⟩ [padRow] (by decide),
   C4_row_walk.2.1 ⟨[], []⟩ [catHeaderRow, padRow] (by decide),
   C4_row_walk.2.2.2.1 ⟨none, none, ⟨[], []⟩⟩ padRow (by decide)⟩

/-- C5: the split-on-newline branch of the line-item handler is dead code.
The pattern's free-text group cannot cross a newline (see
`ligneMatch_captures`), so a row whose free text continues on a second line
("1.1.1 Peinture\ncomplète 2 u ...") does not match at all and emits NO line
item — instead of the claimed item with title "Peinture" and description
"complète" — while the single-line variant emits an item whose description
is always the empty string. -/
theorem C5_newline_split_dead :
    ligneMatch "1.1.1 Peinture\ncomplète 2 u 10,00 € 10.0 % 20,00 €".data = none ∧
    processTables
        [[[some "1.1.1 Peinture\ncomplète 2 u 10,00 € 10.0 % 20,00 €".data], padRow]] =
      .ok ⟨[], []⟩ ∧
    processTables [[[some "1.1.1 Peinture 2 u 10,00 € 10.0 % 20,00 €".data], padRow]] =
      .ok ⟨[], [⟨"1.1.1".data, none, none, none, "Peinture".data, [], decimalQ 2 0,
                 "u".data, decimalQ 1000 2, decimalQ 100 1, decimalQ 2000 2⟩]⟩ ∧
    splitDesignation "Peinture\ncomplète".data = ("Peinture".data, "complète".data) := by
  refine ⟨by decide, by decide, by decide, by decide⟩

/-- C6, counterexample: a first page carrying a document number and the
marked but invalid date 31/02/2025 makes metadata extraction raise (the
`strptime` call has no try/except), instead of leaving the date absent and
keeping the other fields. -/
theorem C6_counterexample :
    extractMetadata "N° D202501-001\nEn date du 31/02/2025".data = .error () ∧
    searchPos numeroAt "N° D202501-001\nEn date du 31/02/2025".data =
      some "D202501-001".data ∧
    searchPos (dateAt enDateMarker) "N° D202501-001\nEn date du 31/02/2025".data =
      some "31/02/2025".data := by
  refine ⟨by decide, by decide, by decide⟩

/-- C6, amended: a date marker followed by a matched but invalid calendar
date raises a fatal error for the whole metadata extraction (no fields are
returned for that document; the batch layer records the document as failed);
31/02/2025 is such an invalid date; a matched VALID issue date does land in
the issue-date field. -/
theorem C6_invalid_date_raises :
    (∀ (text s : Str), searchPos (dateAt enDateMarker) text = some s →
       strptimeDMY s = none → extractMetadata text = .error ()) ∧
    strptimeDMY "31/02/2025".data = none ∧
    (∀ (text s : Str) (d : PyDate) (m : Metadata),
       searchPos (dateAt enDateMarker) text = some s → strptimeDMY s = some d →
       extractMetadata text = .ok m → m.date_devis = some d) := by
  refine ⟨?_, by decide, ?_⟩
  · intro text s hs hbad
    simp only [extractMetadata, hs, dateField, hbad]
  · intro text s d m hs hgood hm
    simp only [extractMetadata, hs, dateField, hgood] at hm
    cases hv : searchPos (dateAt valableMarker) text with
    | none =>
      rw [hv] at hm
      simp only [Except.ok.injEq] at hm
      rw [← hm]
    | some s2 =>
      rw [hv] at hm
      dsimp only at hm
      cases hv2 : strptimeDMY s2 with
      | none => rw [hv2] at hm; exact absurd hm (by simp)
      | some d2 =>
        rw [hv2] at hm
        simp only [Except.ok.injEq] at hm
        rw [← hm]

/-- C6, witness: the raise rule applied to a concrete text with the invalid
date 31/02/2025, and the valid-date rule applied to scenario A's date. -/
theorem C6_invalid_date_raises_witness :
    extractMetadata "En date du 31/02/2025".data = .error () ∧
    (⟨some "D202501-001".data, some ⟨15, 1, 2025⟩, none⟩ : Metadata).date_devis =
      some ⟨15, 1, 2025⟩ :=
  ⟨C6_invalid_date_raises.1 "En date du 31/02/2025".data "31/02/2025".data
     (by decide) (by decide),
   C6_invalid_date_raises.2.2 "N° D202501-001\nEn date du 15/01/2025".data
     "15/01/2025".data ⟨15, 1, 2025⟩ ⟨some "D202501-001".data, some ⟨15, 1, 2025⟩, none⟩
     (by decide) (by decide) (by decide)⟩

/-- C7, counterexample: a last page whose net-total label is followed by a
matched but unparseable amount ("1,2,3 €") makes the totals extraction raise,
so the gross-total field is not produced even though its label followed by a
Euro-suffixed number occurs in the text — the present-iff-label claim fails
on such texts. -/
theorem C7_counterexample :
    extractMontants "Total net HT 1,2,3 €\nTotal TTC 1 100,00 €".data [] = .error () ∧
    (searchPos (amtAt "Total TTC".data)
      "Total net HT 1,2,3 €\nTotal TTC 1 100,00 €".data).isSome = true := by
  refine ⟨by decide, by decide⟩

/-- C7, amended: whenever the totals extraction returns (every matched
amount group parses), each of the four fields is present exactly when its
label pattern matched — never defaulted to zero; a matched but unparseable
amount raises instead. Scenario C holds with netTotal 1000 and grossTotal
1100 and both VAT fields absent. -/
theorem C7_totals_presence :
    (∀ (text : Str) (pieces : List Piece) (m : Montants),
       extractMontants text pieces = .ok m →
       m.total_ht.isSome = (searchPos (amtAt "Total net HT".data) text).isSome ∧
       m.tva_10_pct.isSome = (searchPos (tvaAt "(10.0%)".data) text).isSome ∧
       m.tva_20_pct.isSome = (searchPos (tvaAt "(20.0%)".data) text).isSome ∧
       m.total_ttc.isSome = (searchPos (amtAt "Total TTC".data) text).isSome) ∧
    extractMontants scenarioCText [] =
      .ok ⟨some (decimalQ 100000 2), none, none, some (decimalQ 110000 2), none⟩ ∧
    decimalQ 100000 2 = 1000 ∧ decimalQ 110000 2 = 1100 := by
  refine ⟨?_, by decide, by decide, by decide⟩
  intro text pieces m h
  unfold extractMontants at h
  cases h1 : amtField (searchPos (amtAt "Total net HT".data) text) with
  | error e => rw [h1] at h; exact absurd h (by simp)
  | ok ht =>
    rw [h1] at h
    cases h2 : amtField (searchPos (tvaAt "(10.0%)".data) text) with
    | error e => rw [h2] at h; exact absurd h (by simp)
    | ok t10 =>
      rw [h2] at h
      cases h3 : amtField (searchPos (tvaAt "(20.0%)".data) text) with
      | error e => rw [h3] at h; exact absurd h (by simp)
      | ok t20 =>
        rw [h3] at h
        cases h4 : amtField (searchPos (amtAt "Total TTC".data) text) with
        | error e => rw [h4] at h; exact absurd h (by simp)
        | ok ttc =>
          rw [h4] at h
          simp only [Except.ok.injEq] at h
          rw [← h]
          exact ⟨amtField_ok_isSome h1, amtField_ok_isSome h2,
                 amtField_ok_isSome h3, amtField_ok_isSome h4⟩

/-- C7, witness: the presence rule applied to scenario C's last-page text. -/
theorem C7_totals_presence_witness :
    ((⟨some (decimalQ 100000 2), none, none, some (decimalQ 110000 2), none⟩ :
        Montants).total_ht.isSome =
      (searchPos (amtAt "Total net HT".data) scenarioCText).isSome) ∧
    ((⟨some (decimalQ 100000 2), none, none, some (decimalQ 110000 2), none⟩ :
        Montants).tva_10_pct.isSome =
      (searchPos (tvaAt "(10.0%)".data) scenarioCText).isSome) ∧
    ((⟨some (decimalQ 100000 2), none, none, some (decimalQ 110000 2), none⟩ :
        Montants).tva_20_pct.isSome =
      (searchPos (tvaAt "(20.0%)".data) scenarioCText).isSome) ∧
    ((⟨some (decimalQ 100000 2), none, none, some (decimalQ 110000 2), none⟩ :
        Montants).total_ttc.isSome =
      (searchPos (amtAt "Total TTC".data) scenarioCText).isSome) :=
  C7_totals_presence.1 scenarioCText []
    ⟨some (decimalQ 100000 2), none, none, some (decimalQ 110000 2), none⟩ (by decide)

/-- C8: locale-aware numeric parsing. The totals path parses "1 234,56"
(comma decimal separator, space thousands separator) to exactly 1234.56; on
the line-item paths (quantity, unit price, line total) the captured strings
can never contain a space, so the code's comma-to-dot conversion coincides
with the full strip-spaces-then-comma-to-dot rule on every capture. -/
theorem C8_locale_numeric_parsing :
    pyFloat (cleanAmt "1 234,56".data) = some (decimalQ 123456 2) ∧
    decimalQ 123456 2 = (1234.56 : ℚ) ∧
    (∀ (line : Str) (lc : LigneCaps), ligneMatch line = some lc →
       commaDot lc.qte = cleanAmt lc.qte ∧ commaDot lc.prix = cleanAmt lc.prix ∧
       commaDot lc.total = cleanAmt lc.total) := by
  refine ⟨by decide, ?_, ?_⟩
  · rw [decimalQ, Rat.divInt_eq_div]
    norm_num
  · intro line lc h
    obtain ⟨hnl, hq, hp, ht⟩ := ligneMatch_captures h
    exact ⟨commaDot_eq_cleanAmt hq,
           commaDot_eq_cleanAmt (fun c hc => digitComma_no_space (hp c hc)),
           commaDot_eq_cleanAmt (fun c hc => digitComma_no_space (ht c hc))⟩

/-- C8, witness: the space-free agreement applied to the captures of a
concrete matched priced line. -/
theorem C8_locale_numeric_parsing_witness :
    commaDot "2".data = cleanAmt "2".data ∧
    commaDot "10,00".data = cleanAmt "10,00".data ∧
    commaDot "20,00".data = cleanAmt "20,00".data :=
  C8_locale_numeric_parsing.2.2 "1.1.1 Travaux 2 u 10,00 € 10.0 % 20,00 €".data
    ⟨"1.1.1".data, "Travaux".data, "2".data, "u".data, "10,00".data, "10.0".data,
     "20,00".data⟩ (by decide)

/-- C9: the batch driver produces exactly one report row per input file, in
order; each row is a function of its own file's outcome alone (so one
document's failure cannot affect any other row); a failing file's row has
its success flag false, the filename in the file column, and the raised
message as its error text. -/
theorem C9_batch_isolation :
    ∀ files : List (Str × Except Str ParsedDoc),
      (testParserBatch files).length = files.length ∧
      (∀ i : Nat, (testParserBatch files)[i]? =
        (files[i]?).map (fun pr => mkRow pr.1 pr.2)) ∧
      (∀ f e : Str, mkRow f (.error e) =
        ⟨f, false, none, none, none, 0, 0, 0, 0, some e⟩) := by
  intro files
  refine ⟨?_, ?_, fun f e => rfl⟩
  · rw [testParserBatch_eq_map]
    exact List.length_map _ _
  · intro i
    rw [testParserBatch_eq_map, List.getElem?_map]
